import Mathlib

/-!
A shallow embedding of the news aggregation pipeline of `pract1.py`
(classes `NewsFetcher` and `NewsParser`), together with proofs about it.

Python dictionaries holding an article are modelled by the structure
`Article` below: the keys `title`, `link`, `published` are always present
(every article record is created by `fetch_news` with exactly these keys),
while `description`, `sentiment` and `subjectivity` model keys that may be
absent (`Option`).  Python float scores are modelled by `ℚ`: the program
performs no floating-point arithmetic on them, it only stores a score and
overwrites it with the literal `0.1`.  Python runtime exceptions that the
claims talk about are modelled by `Except PyError`.
-/

namespace NewsPipeline

/-- Python runtime errors that the embedded fragments can raise. -/
inductive PyError where
  | unboundLocal
  | keyError
  deriving DecidableEq

/-- An article record, as built by `fetch_news` and enriched downstream. -/
structure Article where
  title : String
  link : String
  published : String
  description : Option String := none
  sentiment : Option String := none
  subjectivity : Option ℚ := none
  deriving DecidableEq

/-- A raw article object of the NewsAPI JSON response; `fetch_news` reads
the fields `title`, `url` and `publishedAt` of each. -/
structure RawArticle where
  title : String
  url : String
  publishedAt : String
  deriving DecidableEq

/-- Outcome of `self.session.get(url, headers=HEADERS)` inside `fetch_news`:
either the call raises a `requests.exceptions.RequestException` before any
response object is bound to the local variable `response` (connection errors,
and `RetryError` after the retry budget on 5xx is exhausted), or a response
object is returned, carrying a status code, a body, and the parsed
`articles` field of the JSON body (`[]` models both a missing and an empty
`articles` field, matching `.get('articles', [])`). -/
inductive HttpResult where
  | raised
  | response (status : Nat) (body : String) (articles : List RawArticle)
  deriving DecidableEq

/-- `NewsFetcher.fetch_news`.  The `try` block runs `session.get` and then
`response.raise_for_status()` (which raises for any status in 400..599).
The `except requests.exceptions.RequestException` handler evaluates
`if response is not None:` — when `session.get` itself raised, the local
variable `response` was never assigned, so this line raises
`UnboundLocalError`, which propagates out of `fetch_news`.  When a response
exists the handler logs and returns `[]`.  On success the JSON articles are
mapped to records with exactly the keys `title`, `link`, `published`. -/
def fetch_news : HttpResult → Except PyError (List Article)
  | .raised => .error .unboundLocal
  | .response status _body articles =>
    if 400 ≤ status ∧ status < 600 then
      .ok []
    else
      .ok (articles.map fun a =>
        { title := a.title, link := a.url, published := a.publishedAt })

/-- A Python `dict` keyed by strings, as an ordered association list:
insertion order of first occurrences is the iteration order. -/
abbrev PyDict := List (String × Article)

/-- One step of building a Python dict: `d[k] = v`.  If the key is present
its value is overwritten in place (the key keeps its position), otherwise
the pair is appended. -/
def dictInsert (d : PyDict) (k : String) (v : Article) : PyDict :=
  if d.any (fun p => decide (p.1 = k)) then
    d.map (fun p => if p.1 = k then (k, v) else p)
  else
    d ++ [(k, v)]

/-- The dict comprehension `{entry['link']: entry for entry in all_articles}`. -/
def buildLinkDict (articles : List Article) : PyDict :=
  articles.foldl (fun d a => dictInsert d a.link a) []

/-- `{entry['link']: entry for entry in all_articles}.values()` — the
deduplication step of `main`. -/
def dedupByLink (articles : List Article) : List Article :=
  (buildLinkDict articles).map Prod.snd

/-- Lookup in the modelled dict (first entry whose key matches). -/
def pyLookup (d : PyDict) (k : String) : Option Article :=
  (d.find? (fun p => decide (p.1 = k))).map Prod.snd

/-- The last article of the list whose `link` equals `k`. -/
def lastOcc (k : String) (articles : List Article) : Option Article :=
  articles.reverse.find? (fun a => decide (a.link = k))

/-- The comparison realised by
`sorted(articles, key=lambda x: x['published'], reverse=True)`:
`a` may come before `b` iff `b.published ≤ a.published`. -/
def publishedDesc (a b : Article) : Bool :=
  decide (b.published ≤ a.published)

/-- `NewsParser.filter_and_sort_articles`.  CPython's `sorted` with
`reverse=True` is a stable sort with respect to the descending key
comparison, hence it coincides with the stable `mergeSort` under
`publishedDesc`. -/
def filter_and_sort_articles (articles : List Article) : List Article :=
  articles.mergeSort publishedDesc

/-- The enrichment that one iteration of the `analyze_sentiment` loop
performs on one article record. -/
def analyzeOne (model : String → String × ℚ) (a : Article) : Article :=
  { a with sentiment := some (model a.title).1,
           subjectivity := some (model a.title).2 }

/-- `NewsParser.analyze_sentiment`, instrumented: the loop calls
`self.sentiment_model(title)[0]` once per article and writes
`article['sentiment'] = result['label']` and
`article['subjectivity'] = result['score']`.  The second component records
the sequence of inputs the external classifier was invoked on, in order. -/
def analyze_sentiment (model : String → String × ℚ) (articles : List Article) :
    List Article × List String :=
  articles.foldl
    (fun acc article =>
      let title := article.title
      let result := model title
      (acc.1 ++ [{ article with sentiment := some result.1,
                                subjectivity := some result.2 }],
       acc.2 ++ [title]))
    ([], [])

/-- `NewsParser.adjust_subjectivity`.  The loop reads
`article['sentiment']` — a `KeyError` if the article was never scored —
and overwrites `article['subjectivity']` with `0.1` when the sentiment is
`'NEUTRAL'`. -/
def adjust_subjectivity : List Article → Except PyError (List Article)
  | [] => .ok []
  | a :: rest =>
    match a.sentiment with
    | none => .error .keyError
    | some s => do
      let rest2 ← adjust_subjectivity rest
      .ok ((if s = "NEUTRAL" then { a with subjectivity := some (1/10 : ℚ) } else a) :: rest2)

/-- Python `str.lower` restricted to the alphabets this program works with:
ASCII `A`..`Z` and Cyrillic `А`..`Я` map down by `0x20`, `Ё` maps to `ё`,
every other character is unchanged. -/
def lowerChar (c : Char) : Char :=
  if 'A' ≤ c ∧ c ≤ 'Z' then Char.ofNat (c.toNat + 32)
  else if 'А' ≤ c ∧ c ≤ 'Я' then Char.ofNat (c.toNat + 32)
  else if c = 'Ё' then 'ё'
  else c

/-- `s.lower()` as a character list. -/
def lowerStr (s : String) : List Char :=
  s.data.map lowerChar

/-- Python's substring test `needle in haystack` on character lists. -/
def containsSub (needle : List Char) : List Char → Bool
  | [] => needle.isEmpty
  | c :: rest => needle.isPrefixOf (c :: rest) || containsSub needle rest

/-- The match condition of one iteration of `filter_articles_by_keywords`:
`any(keyword.lower() in title.lower() or keyword.lower() in summary.lower()
for keyword in keywords)` with `title = article.get('title', '')` and
`summary = article.get('description', '')`. -/
def kwMatch (keywords : List String) (a : Article) : Bool :=
  let title := a.title
  let summary := a.description.getD ""
  keywords.any fun kw =>
    containsSub (lowerStr kw) (lowerStr title) || containsSub (lowerStr kw) (lowerStr summary)

/-- `NewsParser.filter_articles_by_keywords`: the loop appends each matching
article to `filtered_articles`. -/
def filter_articles_by_keywords (articles : List Article) (keywords : List String) :
    List Article :=
  articles.foldl (fun filtered a => if kwMatch keywords a then filtered ++ [a] else filtered) []

/-- The module-level keyword buckets. -/
def keywords_vish : List String := ["инженерная школа", "РУТ МИИТ", "ВИШ"]

def keywords_high_speed : List String := ["ВСМ", "скоростные магистрали", "высокоскоростной"]

def keywords_rzd : List String := ["РЖД", "Российские железные дороги"]

/-- The `result` bundle that `main` serialises to `all_articles.json`. -/
structure ResultBundle where
  unique_articles : List Article
  analyzed_articles : List Article
  filtered_vish : List Article
  filtered_high_speed : List Article
  filtered_rzd : List Article
  final_articles : List Article
  deriving DecidableEq

/-- The net effect of the in-place enrichment on one article dict:
`analyze_sentiment` writes the label and the score, then
`adjust_subjectivity` overwrites the score with `0.1` when the label is
`'NEUTRAL'`.  Used to express what the aliased `unique_articles` dicts look
like at serialisation time. -/
def enrichAlias (model : String → String × ℚ) (a : Article) : Article :=
  let s := (model a.title).1
  let scored : Article :=
    { a with sentiment := some s, subjectivity := some (model a.title).2 }
  if s = "NEUTRAL" then { scored with subjectivity := some (1/10 : ℚ) } else scored

/-- `NewsParser.main`, given the transport outcome of the three fetches and
the sentiment classifier.  In Python, `sorted_articles`, `analyzed_articles`
and `adjusted_articles` alias the very dict objects stored in
`unique_articles`: `analyze_sentiment` and `adjust_subjectivity` mutate them
in place.  Hence at the point where `result` is built, the list
`list(unique_articles)` holds the enriched records (in dict order), and the
key `"analyzed_articles"` holds the same object as `adjusted_articles`;
both facts are reflected below. -/
def mainModel (o1 o2 o3 : HttpResult) (model : String → String × ℚ) :
    Except PyError ResultBundle := do
  let vish_news ← fetch_news o1
  let high_speed_news ← fetch_news o2
  let russian_railways_news ← fetch_news o3
  let all_articles := vish_news ++ high_speed_news ++ russian_railways_news
  let unique_articles := dedupByLink all_articles
  let sorted_articles := filter_and_sort_articles unique_articles
  let analyzed_articles := (analyze_sentiment model sorted_articles).1
  let adjusted_articles ← adjust_subjectivity analyzed_articles
  let filtered_vish := filter_articles_by_keywords adjusted_articles keywords_vish
  let filtered_high_speed := filter_articles_by_keywords adjusted_articles keywords_high_speed
  let filtered_rzd := filter_articles_by_keywords adjusted_articles keywords_rzd
  let final_articles := filtered_vish ++ filtered_high_speed ++ filtered_rzd
  .ok { unique_articles := unique_articles.map (enrichAlias model),
        analyzed_articles := adjusted_articles,
        filtered_vish := filtered_vish,
        filtered_high_speed := filtered_high_speed,
        filtered_rzd := filtered_rzd,
        final_articles := final_articles }

/-- The per-record effect of `adjust_subjectivity` on an already-scored
article. -/
def adjustPure (a : Article) : Article :=
  if a.sentiment = some "NEUTRAL" then { a with subjectivity := some (1/10 : ℚ) } else a

/-- The title half of the keyword match condition alone (the `description`
branch dropped). -/
def titleOnlyMatch (keywords : List String) (a : Article) : Bool :=
  keywords.any fun kw => containsSub (lowerStr kw) (lowerStr a.title)

/-- Non-increasing order of the `published` strings. -/
def SortedDesc (l : List Article) : Prop :=
  l.Pairwise fun a b => b.published ≤ a.published

/-- Sample article used in concrete instantiations (spec §8 example). -/
def artRzd : Article :=
  { title := "РЖД объявила тендер", link := "https://e.org/rzd", published := "2024-05-01T10:00:00Z" }

/-- Sample article whose title and description match no keyword. -/
def artOther : Article :=
  { title := "Погода в Москве", link := "https://e.org/w", published := "2024-05-02T10:00:00Z" }

/-- Sample article with a lower-case title, matched by an upper-case keyword. -/
def artLowerRzd : Article :=
  { title := "ржд и вокзалы", link := "https://e.org/rzd2", published := "2024-05-03T10:00:00Z" }

/-- Sample scored article with NEUTRAL sentiment. -/
def artNeutral : Article :=
  { title := "n", link := "l1", published := "2024-01-02",
    sentiment := some "NEUTRAL", subjectivity := some (9/10 : ℚ) }

/-- Sample scored article with POSITIVE sentiment. -/
def artPositive : Article :=
  { title := "p", link := "l2", published := "2024-01-01",
    sentiment := some "POSITIVE", subjectivity := some (8/10 : ℚ) }

/-- Sample article sharing `artNeutral`'s link with different content. -/
def artNeutralV2 : Article :=
  { title := "n second version", link := "l1", published := "2024-01-05" }

/-- A transport outcome carrying a 500 response (retries exhausted with a
response object present), used in concrete runs. -/
def httpEmpty : HttpResult := .response 500 "" []

/-- A classifier stub labelling everything NEUTRAL with score 1/2. -/
def constNeutral : String → String × ℚ := fun _ => ("NEUTRAL", (1/2 : ℚ))

/-- The bundle of six empty collections. -/
def emptyBundle : ResultBundle := ⟨[], [], [], [], [], []⟩

/-- A sample raw API article. -/
def rawSample : RawArticle := { title := "Т", url := "u", publishedAt := "2024" }

/-- The record `fetch_news` builds from `rawSample`. -/
def artFromRaw : Article := { title := "Т", link := "u", published := "2024" }

/-! ### Helper lemmas about the modelled Python dict -/

theorem pyLookup_cons (p : String × Article) (tl : PyDict) (k : String) :
    pyLookup (p :: tl) k = if p.1 = k then some p.2 else pyLookup tl k := by
  by_cases h : p.1 = k
  · simp [pyLookup, List.find?_cons_of_pos _ (decide_eq_true h), h]
  · unfold pyLookup
    have hfind : List.find? (fun q : String × Article => decide (q.1 = k)) (p :: tl)
        = List.find? (fun q : String × Article => decide (q.1 = k)) tl :=
      List.find?_cons_of_neg _ (by simp [h])
    rw [hfind, if_neg h]

theorem pyLookup_map_update (tl : PyDict) (k kq : String) (v : Article) :
    pyLookup (tl.map fun p => if p.1 = k then (k, v) else p) kq =
      if kq = k then (if tl.any (fun p => decide (p.1 = k)) then some v else none)
      else pyLookup tl kq := by
  induction tl with
  | nil => by_cases h : kq = k <;> simp [pyLookup, h]
  | cons p tl ih =>
    by_cases hp : p.1 = k
    · by_cases hk : kq = k
      · subst hk
        simp [List.map_cons, pyLookup_cons, hp, ih]
      · have hkk : ¬k = kq := fun he => hk he.symm
        have hpk : ¬p.1 = kq := hp ▸ hkk
        simp [List.map_cons, pyLookup_cons, hp, hk, hkk, hpk, ih]
    · by_cases hk : kq = k
      · subst hk
        have hb : decide (p.1 = kq) = false := by simp [hp]
        rw [List.map_cons, if_neg hp, pyLookup_cons, if_neg hp, ih, if_pos rfl, if_pos rfl,
          List.any_cons, hb, Bool.false_or]
      · simp [List.map_cons, pyLookup_cons, hp, hk, ih]

theorem pyLookup_dictInsert (d : PyDict) (k kq : String) (v : Article) :
    pyLookup (dictInsert d k v) kq = if kq = k then some v else pyLookup d kq := by
  by_cases h : (d.any fun p => decide (p.1 = k)) = true
  · rw [dictInsert, if_pos h, pyLookup_map_update]
    by_cases hk : kq = k <;> simp [hk, h]
  · rw [dictInsert, if_neg h]
    by_cases hk : kq = k
    · subst hk
      have hnone : d.find? (fun p => decide (p.1 = kq)) = none :=
        List.find?_eq_none.mpr fun p hp hc => by
          have := List.any_eq_false.mp (Bool.eq_false_iff.mpr h) p hp
          exact this hc
      simp [pyLookup, List.find?_append, hnone]
    · have hkk : ¬k = kq := fun he => hk he.symm
      simp [pyLookup, List.find?_append, hk, hkk]

theorem pyLookup_foldl_dictInsert (xs : List Article) (d : PyDict) (k : String) :
    pyLookup (xs.foldl (fun d a => dictInsert d a.link a) d) k =
      (xs.reverse.find? (fun a => decide (a.link = k))).or (pyLookup d k) := by
  induction xs generalizing d with
  | nil => simp
  | cons a tl ih =>
    rw [List.foldl_cons, ih, List.reverse_cons, List.find?_append, Option.or_assoc]
    congr 1
    rw [pyLookup_dictInsert]
    by_cases hk : k = a.link
    · simp [hk]
    · have hkk : ¬a.link = k := fun he => hk he.symm
      simp [hk, hkk]

theorem pyLookup_buildLinkDict (xs : List Article) (k : String) :
    pyLookup (buildLinkDict xs) k = lastOcc k xs := by
  rw [buildLinkDict, pyLookup_foldl_dictInsert, lastOcc]
  simp [pyLookup, Option.or_none]

theorem keys_dictInsert (d : PyDict) (k : String) (v : Article) :
    (dictInsert d k v).map Prod.fst =
      if d.any (fun p => decide (p.1 = k)) then d.map Prod.fst else d.map Prod.fst ++ [k] := by
  unfold dictInsert
  by_cases h : (d.any fun p => decide (p.1 = k)) = true
  · simp only [h, if_true, List.map_map]
    exact List.map_congr_left fun p _ => by
      by_cases hp : p.1 = k
      · simp [Function.comp, hp]
      · simp [Function.comp, hp]
  · simp [h]

theorem nodupKeys_dictInsert (d : PyDict) (k : String) (v : Article)
    (h : (d.map Prod.fst).Nodup) : ((dictInsert d k v).map Prod.fst).Nodup := by
  rw [keys_dictInsert]
  by_cases hc : (d.any fun p => decide (p.1 = k)) = true
  · simpa [hc] using h
  · have hk : k ∉ d.map Prod.fst := by
      intro hmem
      obtain ⟨p, hp, hpk⟩ := List.mem_map.mp hmem
      exact (List.any_eq_false.mp (Bool.eq_false_iff.mpr hc) p hp) (decide_eq_true hpk)
    rw [if_neg hc, List.nodup_append]
    exact ⟨h, List.nodup_singleton k,
      fun a ha hb => hk ((List.mem_singleton.mp hb) ▸ ha)⟩

theorem mem_dictInsert {p : String × Article} {d : PyDict} {k : String} {v : Article}
    (h : p ∈ dictInsert d k v) : p ∈ d ∨ p = (k, v) := by
  unfold dictInsert at h
  by_cases hc : (d.any fun q => decide (q.1 = k)) = true
  · rw [if_pos hc] at h
    obtain ⟨q, hq, hqe⟩ := List.mem_map.mp h
    by_cases hqk : q.1 = k
    · right; rw [← hqe]; simp [hqk]
    · left; rw [← hqe]; simpa [hqk] using hq
  · rw [if_neg hc] at h
    rcases List.mem_append.mp h with h1 | h1
    · exact Or.inl h1
    · exact Or.inr (by simpa using h1)

theorem mem_foldl_dictInsert {xs : List Article} {d : PyDict} {p : String × Article}
    (h : p ∈ xs.foldl (fun d a => dictInsert d a.link a) d) :
    p ∈ d ∨ (p.2 ∈ xs ∧ p.1 = p.2.link) := by
  induction xs generalizing d with
  | nil => exact Or.inl (by simpa using h)
  | cons a tl ih =>
    rw [List.foldl_cons] at h
    rcases ih h with h1 | h1
    · rcases mem_dictInsert h1 with h2 | h2
      · exact Or.inl h2
      · exact Or.inr ⟨by simp [h2], by simp [h2]⟩
    · exact Or.inr ⟨List.mem_cons_of_mem _ h1.1, h1.2⟩

theorem mem_buildLinkDict {xs : List Article} {p : String × Article}
    (h : p ∈ buildLinkDict xs) : p.2 ∈ xs ∧ p.1 = p.2.link := by
  rcases mem_foldl_dictInsert h with h1 | h1
  · simp at h1
  · exact h1

theorem nodupKeys_buildLinkDict (xs : List Article) :
    ((buildLinkDict xs).map Prod.fst).Nodup := by
  rw [buildLinkDict]
  have : ∀ (d : PyDict), (d.map Prod.fst).Nodup →
      ((xs.foldl (fun d a => dictInsert d a.link a) d).map Prod.fst).Nodup := by
    induction xs with
    | nil => intro d hd; simpa using hd
    | cons a tl ih =>
      intro d hd
      rw [List.foldl_cons]
      exact ih _ (nodupKeys_dictInsert _ _ _ hd)
  exact this [] (by simp)

theorem pyLookup_of_mem {d : PyDict} {p : String × Article}
    (hnd : (d.map Prod.fst).Nodup) (hp : p ∈ d) : pyLookup d p.1 = some p.2 := by
  induction d with
  | nil => simp at hp
  | cons q tl ih =>
    rw [pyLookup_cons]
    rcases List.mem_cons.mp hp with h1 | h1
    · subst h1; simp
    · have hq : ¬q.1 = p.1 := by
        intro he
        have : p.1 ∈ tl.map Prod.fst := List.mem_map.mpr ⟨p, h1, rfl⟩
        rw [← he] at this
        exact (List.nodup_cons.mp (by simpa using hnd)).1 this
      rw [if_neg hq]
      exact ih (List.nodup_cons.mp (by simpa using hnd)).2 h1

/-! ### Claim C2 -/

/-- Claim C2: for every input sequence of articles (possibly containing
duplicate links), the deduplication step of `main` produces a collection in
which each link occurs exactly once (every input link is represented, and
the output links are pairwise distinct), and each retained record equals the
last occurrence of its link in the input sequence (last-write-wins); the
empty input yields the empty output. -/
theorem dedupByLink_last_write_wins (articles : List Article) :
    ((dedupByLink articles).map Article.link).Nodup
    ∧ (∀ a ∈ dedupByLink articles, lastOcc a.link articles = some a)
    ∧ (∀ a ∈ articles, ∃ b ∈ dedupByLink articles, b.link = a.link)
    ∧ dedupByLink ([] : List Article) = [] := by
  refine ⟨?_, ?_, ?_, rfl⟩
  · have h1 : (dedupByLink articles).map Article.link = (buildLinkDict articles).map Prod.fst := by
      rw [dedupByLink, List.map_map]
      exact List.map_congr_left fun p hp => (mem_buildLinkDict hp).2.symm
    rw [h1]
    exact nodupKeys_buildLinkDict articles
  · intro a ha
    obtain ⟨p, hp, hpa⟩ := List.mem_map.mp ha
    have hlink : a.link = p.1 := by rw [← hpa]; exact (mem_buildLinkDict hp).2.symm
    rw [← pyLookup_buildLinkDict, hlink]
    rw [pyLookup_of_mem (nodupKeys_buildLinkDict articles) hp, hpa]
  · intro a ha
    have hsome : (lastOcc a.link articles).isSome := by
      rw [lastOcc]
      exact List.find?_isSome.mpr ⟨a, List.mem_reverse.mpr ha, by simp⟩
    obtain ⟨b, hb⟩ := Option.isSome_iff_exists.mp hsome
    have hblink : b.link = a.link := by
      have := List.find?_some hb
      simpa using this
    have hbmem : b ∈ dedupByLink articles := by
      have hlook : pyLookup (buildLinkDict articles) a.link = some b := by
        rw [pyLookup_buildLinkDict]; exact hb
      rw [pyLookup] at hlook
      obtain ⟨q, hq, hqb⟩ := Option.map_eq_some'.mp hlook
      exact List.mem_map.mpr ⟨q, List.mem_of_find?_eq_some hq, hqb⟩
    exact ⟨b, hbmem, hblink⟩

/-! ### Helper lemmas about the sorter, the scorer, the adjuster, the filter -/

theorem publishedDesc_trans (a b c : Article) (h1 : publishedDesc a b = true)
    (h2 : publishedDesc b c = true) : publishedDesc a c = true := by
  rw [publishedDesc, decide_eq_true_eq] at *
  exact le_trans h2 h1

theorem publishedDesc_total (a b : Article) : (publishedDesc a b || publishedDesc b a) = true := by
  rcases le_total a.published b.published with h | h <;>
    simp [publishedDesc, h]

theorem analyze_sentiment_eq (model : String → String × ℚ) (xs : List Article) :
    analyze_sentiment model xs = (xs.map (analyzeOne model), xs.map Article.title) := by
  rw [analyze_sentiment]
  have gen : ∀ (ys : List Article) (acc : List Article × List String),
      ys.foldl
        (fun acc article =>
          let title := article.title
          let result := model title
          (acc.1 ++ [{ article with sentiment := some result.1,
                                    subjectivity := some result.2 }],
           acc.2 ++ [title]))
        acc = (acc.1 ++ ys.map (analyzeOne model), acc.2 ++ ys.map Article.title) := by
    intro ys
    induction ys with
    | nil => intro acc; simp
    | cons a tl ih =>
      intro acc
      rw [List.foldl_cons, ih]
      simp [analyzeOne]
  simpa using gen xs ([], [])

theorem adjustPure_sentiment (a : Article) : (adjustPure a).sentiment = a.sentiment := by
  rw [adjustPure]; split <;> rfl

theorem adjustPure_published (a : Article) : (adjustPure a).published = a.published := by
  rw [adjustPure]; split <;> rfl

theorem adjustPure_description (a : Article) : (adjustPure a).description = a.description := by
  rw [adjustPure]; split <;> rfl

theorem adjustPure_idem (a : Article) : adjustPure (adjustPure a) = adjustPure a := by
  by_cases h : a.sentiment = some "NEUTRAL"
  · simp [adjustPure, h]
  · simp [adjustPure, h]

theorem adjust_subjectivity_ok (xs : List Article) (h : ∀ a ∈ xs, a.sentiment.isSome) :
    adjust_subjectivity xs = .ok (xs.map adjustPure) := by
  induction xs with
  | nil => rfl
  | cons a tl ih =>
    obtain ⟨s, hs⟩ := Option.isSome_iff_exists.mp (h a (List.mem_cons_self a tl))
    have htl := ih fun b hb => h b (List.mem_cons_of_mem a hb)
    simp only [adjust_subjectivity, hs, htl, List.map_cons]
    by_cases hN : s = "NEUTRAL" <;>
      simp [bind, Except.bind, adjustPure, hs, hN]

theorem adjust_subjectivity_ok_inv {xs ys : List Article}
    (h : adjust_subjectivity xs = .ok ys) :
    (∀ a ∈ xs, a.sentiment.isSome) ∧ ys = xs.map adjustPure := by
  induction xs generalizing ys with
  | nil =>
    simp only [adjust_subjectivity, Except.ok.injEq] at h
    exact ⟨by simp, by simp [← h]⟩
  | cons a tl ih =>
    cases hs : a.sentiment with
    | none => rw [adjust_subjectivity, hs] at h; exact absurd h (by simp)
    | some s =>
      rw [adjust_subjectivity, hs] at h
      cases htl : adjust_subjectivity tl with
      | error e => rw [htl] at h; exact absurd h (by simp [bind, Except.bind])
      | ok zs =>
        rw [htl] at h
        simp only [bind, Except.bind, Except.ok.injEq] at h
        obtain ⟨hall, hzs⟩ := ih htl
        refine ⟨?_, ?_⟩
        · intro b hb
          rcases List.mem_cons.mp hb with hb | hb
          · subst hb; simp [hs]
          · exact hall b hb
        · rw [← h, List.map_cons, hzs]
          by_cases hN : s = "NEUTRAL" <;> simp [adjustPure, hs, hN]

theorem filter_articles_by_keywords_eq (articles : List Article) (keywords : List String) :
    filter_articles_by_keywords articles keywords = articles.filter (kwMatch keywords) := by
  rw [filter_articles_by_keywords]
  have gen : ∀ (ys : List Article) (acc : List Article),
      ys.foldl (fun filtered a => if kwMatch keywords a then filtered ++ [a] else filtered) acc
        = acc ++ ys.filter (kwMatch keywords) := by
    intro ys
    induction ys with
    | nil => intro acc; simp
    | cons a tl ih =>
      intro acc
      rw [List.foldl_cons]
      by_cases hm : kwMatch keywords a = true
      · rw [if_pos hm, ih, List.filter_cons_of_pos hm]
        simp
      · rw [if_neg hm, ih, List.filter_cons_of_neg hm]
  simpa using gen articles []

/-! ### Claim C3 -/

/-- Claim C3: `filter_and_sort_articles` returns a sequence ordered by the
`published` string descending (every pair in order satisfies
`published[i] ≥ published[i+1]` lexicographically), it is stable (the
subsequence of articles holding any fixed `published` value is exactly the
one of the input, in input order), and — the embedding being pure — the
output is a permutation of the unchanged input. -/
theorem filter_and_sort_articles_spec (articles : List Article) :
    (filter_and_sort_articles articles).Pairwise (fun a b => b.published ≤ a.published)
    ∧ (∀ p : String, (filter_and_sort_articles articles).filter (fun a => decide (a.published = p))
        = articles.filter (fun a => decide (a.published = p)))
    ∧ (filter_and_sort_articles articles).Perm articles := by
  refine ⟨?_, ?_, List.mergeSort_perm articles publishedDesc⟩
  · exact (List.sorted_mergeSort publishedDesc_trans publishedDesc_total articles).imp
      fun h => by simpa [publishedDesc] using h
  · intro p
    set pred := fun a : Article => decide (a.published = p) with hpred
    have hc : (articles.filter pred).Pairwise (fun a b => publishedDesc a b = true) := by
      refine List.pairwise_of_forall_mem_list ?_
      intro a ha b hb
      have hap : a.published = p := by simpa [hpred] using (List.mem_filter.mp ha).2
      have hbp : b.published = p := by simpa [hpred] using (List.mem_filter.mp hb).2
      simp [publishedDesc, hap, hbp]
    have hsub : (articles.filter pred).Sublist (filter_and_sort_articles articles) :=
      List.sublist_mergeSort publishedDesc_trans publishedDesc_total hc
        (List.filter_sublist articles)
    have hself : (articles.filter pred).filter pred = articles.filter pred :=
      List.filter_eq_self.mpr fun a ha => (List.mem_filter.mp ha).2
    have hsub2 : (articles.filter pred).Sublist
        ((filter_and_sort_articles articles).filter pred) := by
      have := hsub.filter pred
      rwa [hself] at this
    have hperm : ((filter_and_sort_articles articles).filter pred).Perm
        (articles.filter pred) :=
      (List.mergeSort_perm articles publishedDesc).filter pred
    exact (hsub2.eq_of_length hperm.length_eq.symm).symm

/-! ### Claim C4 -/

/-- Claim C4: `analyze_sentiment` invokes the external classifier once per
article, on that article's `title` alone (the recorded invocation trace is
exactly the list of titles, in order), and each returned article is the
input article with `sentiment` set to the classifier's label for its title
and `subjectivity` set to the classifier's score, so both fields are
populated from `analyzed_articles` onward. -/
theorem analyze_sentiment_spec (model : String → String × ℚ) (articles : List Article) :
    (analyze_sentiment model articles).2 = articles.map Article.title
    ∧ (analyze_sentiment model articles).1 = articles.map (analyzeOne model)
    ∧ (∀ b ∈ (analyze_sentiment model articles).1,
        b.sentiment = some (model b.title).1 ∧ b.subjectivity = some (model b.title).2) := by
  rw [analyze_sentiment_eq]
  refine ⟨rfl, rfl, ?_⟩
  intro b hb
  obtain ⟨a, _, rfl⟩ := List.mem_map.mp hb
  exact ⟨rfl, rfl⟩

/-! ### Claim C5 -/

/-- Claim C5: on a list of scored articles, `adjust_subjectivity` succeeds,
and in its output every article whose `sentiment` is NEUTRAL has
`subjectivity` exactly `0.1` (the other fields unchanged), while every
article whose `sentiment` is not NEUTRAL is unchanged in all fields. -/
theorem adjust_subjectivity_spec (articles : List Article)
    (h : ∀ a ∈ articles, a.sentiment.isSome) :
    ∃ ys, adjust_subjectivity articles = .ok ys ∧ ys.length = articles.length ∧
      ∀ i : Nat, ∀ hi : i < articles.length, ∀ hy : i < ys.length,
        ((articles.get ⟨i, hi⟩).sentiment = some "NEUTRAL" →
          ys.get ⟨i, hy⟩ = { articles.get ⟨i, hi⟩ with subjectivity := some (1/10 : ℚ) })
        ∧ ((articles.get ⟨i, hi⟩).sentiment ≠ some "NEUTRAL" →
          ys.get ⟨i, hy⟩ = articles.get ⟨i, hi⟩) := by
  refine ⟨articles.map adjustPure, adjust_subjectivity_ok articles h, by simp, ?_⟩
  intro i hi hy
  have hget : (articles.map adjustPure).get ⟨i, hy⟩ = adjustPure (articles.get ⟨i, hi⟩) := by
    simp [List.get_eq_getElem, List.getElem_map]
  constructor
  · intro hN
    rw [hget, adjustPure, if_pos hN]
  · intro hN
    rw [hget, adjustPure, if_neg hN]

/-! ### Claim C9 -/

/-- Claim C9: `adjust_subjectivity` is idempotent on scored articles —
running it on its own output returns that output unchanged. -/
theorem adjust_subjectivity_idempotent (articles : List Article)
    (h : ∀ a ∈ articles, a.sentiment.isSome) :
    (adjust_subjectivity articles >>= adjust_subjectivity) = adjust_subjectivity articles := by
  rw [adjust_subjectivity_ok articles h]
  have h2 : ∀ a ∈ articles.map adjustPure, a.sentiment.isSome := by
    intro a ha
    obtain ⟨b, hb, rfl⟩ := List.mem_map.mp ha
    rw [adjustPure_sentiment]
    exact h b hb
  have h3 : adjust_subjectivity (articles.map adjustPure)
      = .ok ((articles.map adjustPure).map adjustPure) := adjust_subjectivity_ok _ h2
  have h4 : (articles.map adjustPure).map adjustPure = articles.map adjustPure := by
    rw [List.map_map]
    exact List.map_congr_left fun a _ => adjustPure_idem a
  simp [bind, Except.bind, h3, h4]

/-! ### Claim C6 -/

/-- Claim C6: `filter_articles_by_keywords` returns exactly the subsequence
of articles matching at least one keyword case-insensitively in `title` or
in the optional `description` (absent treated as the empty string), in
input order; witnessed concretely on the spec's examples, including a
cross-case match. -/
theorem filter_articles_by_keywords_spec (articles : List Article) (keywords : List String) :
    filter_articles_by_keywords articles keywords = articles.filter (kwMatch keywords)
    ∧ (filter_articles_by_keywords articles keywords).Sublist articles
    ∧ (∀ a ∈ articles,
        (a ∈ filter_articles_by_keywords articles keywords ↔ kwMatch keywords a = true))
    ∧ filter_articles_by_keywords [artRzd, artOther] ["РЖД"] = [artRzd]
    ∧ filter_articles_by_keywords [artLowerRzd] ["РЖД"] = [artLowerRzd] := by
  refine ⟨filter_articles_by_keywords_eq articles keywords, ?_, ?_, by decide, by decide⟩
  · rw [filter_articles_by_keywords_eq]
    exact List.filter_sublist articles
  · intro a ha
    rw [filter_articles_by_keywords_eq, List.mem_filter]
    exact ⟨fun hf => hf.2, fun hm => ⟨ha, hm⟩⟩

/-! ### Claim C8 -/

/-- Claim C8: each stage after the sorter preserves non-increasing order of
`published`: `analyze_sentiment`, `adjust_subjectivity` (when it succeeds)
and `filter_articles_by_keywords` (for any keyword list) all map a sorted
list to a sorted list. -/
theorem stages_preserve_sort (model : String → String × ℚ) (articles : List Article)
    (keywords : List String) (h : SortedDesc articles) :
    SortedDesc (analyze_sentiment model articles).1
    ∧ (∀ ys, adjust_subjectivity articles = .ok ys → SortedDesc ys)
    ∧ SortedDesc (filter_articles_by_keywords articles keywords) := by
  refine ⟨?_, ?_, ?_⟩
  · rw [analyze_sentiment_eq]
    exact List.pairwise_map.mpr h
  · intro ys hy
    rw [(adjust_subjectivity_ok_inv hy).2]
    refine List.pairwise_map.mpr (h.imp ?_)
    intro a b hab
    rwa [adjustPure_published, adjustPure_published]
  · rw [filter_articles_by_keywords_eq]
    exact List.Pairwise.sublist (List.filter_sublist articles) h

/-! ### Claim C1 -/

/-- Claim C1 (refuted by the code): when the request raises before a
response object exists — a connection error, or a `RetryError` once the
retry budget on 5xx is exhausted — `fetch_news` does not return the empty
list: its `except` handler evaluates the unbound local `response`, raising
`UnboundLocalError` past the boundary.  Only when a response object exists
(e.g. a plain 4xx/5xx status) does the handler return `[]` as specified. -/
theorem fetch_news_unbound_local :
    fetch_news HttpResult.raised = Except.error PyError.unboundLocal
    ∧ fetch_news (HttpResult.response 500 "Internal Server Error" []) = Except.ok []
    ∧ fetch_news (HttpResult.response 404 "Not Found" []) = Except.ok [] := by
  refine ⟨rfl, by simp [fetch_news], by simp [fetch_news]⟩

/-! ### Helper lemmas about `mainModel` and `fetch_news` -/

theorem fetch_news_fields {o : HttpResult} {arts : List Article}
    (h : fetch_news o = .ok arts) :
    ∀ a ∈ arts, a.description = none ∧ a.sentiment = none ∧ a.subjectivity = none := by
  intro a ha
  cases o with
  | raised => exact absurd h (by simp [fetch_news])
  | response status body articles =>
    rw [fetch_news] at h
    by_cases hs : 400 ≤ status ∧ status < 600
    · rw [if_pos hs] at h
      obtain rfl : ([] : List Article) = arts := by simpa using h
      simp at ha
    · rw [if_neg hs] at h
      obtain rfl : arts = articles.map _ := by simpa using h.symm
      obtain ⟨raw, _, rfl⟩ := List.mem_map.mp ha
      exact ⟨rfl, rfl, rfl⟩

theorem mainModel_ok {o1 o2 o3 : HttpResult} {model : String → String × ℚ}
    {r : ResultBundle} (h : mainModel o1 o2 o3 model = .ok r) :
    ∃ l1 l2 l3 zs,
      fetch_news o1 = .ok l1 ∧ fetch_news o2 = .ok l2 ∧ fetch_news o3 = .ok l3
      ∧ adjust_subjectivity
          ((analyze_sentiment model
            (filter_and_sort_articles (dedupByLink (l1 ++ l2 ++ l3)))).1) = .ok zs
      ∧ r = { unique_articles := (dedupByLink (l1 ++ l2 ++ l3)).map (enrichAlias model),
              analyzed_articles := zs,
              filtered_vish := filter_articles_by_keywords zs keywords_vish,
              filtered_high_speed := filter_articles_by_keywords zs keywords_high_speed,
              filtered_rzd := filter_articles_by_keywords zs keywords_rzd,
              final_articles := filter_articles_by_keywords zs keywords_vish
                ++ filter_articles_by_keywords zs keywords_high_speed
                ++ filter_articles_by_keywords zs keywords_rzd } := by
  rw [mainModel] at h
  cases ho1 : fetch_news o1 with
  | error e => rw [ho1] at h; exact absurd h (by simp [bind, Except.bind])
  | ok l1 =>
  rw [ho1] at h
  cases ho2 : fetch_news o2 with
  | error e => rw [ho2] at h; exact absurd h (by simp [bind, Except.bind])
  | ok l2 =>
  rw [ho2] at h
  cases ho3 : fetch_news o3 with
  | error e => rw [ho3] at h; exact absurd h (by simp [bind, Except.bind])
  | ok l3 =>
  rw [ho3] at h
  simp only [bind, Except.bind] at h
  cases hadj : adjust_subjectivity
      ((analyze_sentiment model
        (filter_and_sort_articles (dedupByLink (l1 ++ l2 ++ l3)))).1) with
  | error e => rw [hadj] at h; exact absurd h (by simp)
  | ok zs =>
    rw [hadj] at h
    simp only [Except.ok.injEq] at h
    exact ⟨l1, l2, l3, zs, rfl, rfl, rfl, hadj, h.symm⟩

/-! ### Claim C7 -/

/-- Claim C7: `main` runs the pipeline in the fixed order fetch (three
queries) → concatenate → deduplicate → sort → score → adjust → keyword
filters, `final_articles` is exactly
`filtered_vish ++ filtered_high_speed ++ filtered_rzd` (so a record kept by
several buckets appears once per bucket: multiplicities add up and are not
deduplicated again), and the exported bundle carries the six named
collections. -/
theorem main_pipeline_spec (o1 o2 o3 : HttpResult) (model : String → String × ℚ)
    (r : ResultBundle) (h : mainModel o1 o2 o3 model = .ok r) :
    ∃ l1 l2 l3,
      fetch_news o1 = .ok l1 ∧ fetch_news o2 = .ok l2 ∧ fetch_news o3 = .ok l3
      ∧ adjust_subjectivity
          ((analyze_sentiment model
            (filter_and_sort_articles (dedupByLink (l1 ++ l2 ++ l3)))).1) = .ok r.analyzed_articles
      ∧ r.unique_articles = (dedupByLink (l1 ++ l2 ++ l3)).map (enrichAlias model)
      ∧ r.filtered_vish = filter_articles_by_keywords r.analyzed_articles keywords_vish
      ∧ r.filtered_high_speed = filter_articles_by_keywords r.analyzed_articles keywords_high_speed
      ∧ r.filtered_rzd = filter_articles_by_keywords r.analyzed_articles keywords_rzd
      ∧ r.final_articles = r.filtered_vish ++ r.filtered_high_speed ++ r.filtered_rzd
      ∧ ∀ a : Article, r.final_articles.count a
          = r.filtered_vish.count a + r.filtered_high_speed.count a + r.filtered_rzd.count a := by
  obtain ⟨l1, l2, l3, zs, h1, h2, h3, hadj, rfl⟩ := mainModel_ok h
  refine ⟨l1, l2, l3, h1, h2, h3, hadj, rfl, rfl, rfl, rfl, rfl, ?_⟩
  intro a
  simp [List.count_append, Nat.add_assoc]

/-! ### Helper lemmas for the title-only filtering claim -/

theorem containsSub_empty_haystack {needle : List Char} :
    containsSub needle [] = needle.isEmpty := rfl

theorem any_or_empty_summary (keywords : List String) (t : List Char)
    (hne : ∀ kw ∈ keywords, ¬kw = "") :
    (keywords.any fun kw =>
        containsSub (lowerStr kw) t || containsSub (lowerStr kw) (lowerStr ""))
      = keywords.any fun kw => containsSub (lowerStr kw) t := by
  induction keywords with
  | nil => rfl
  | cons kw tl ih =>
    rw [List.any_cons, List.any_cons, ih fun k hk => hne k (List.mem_cons_of_mem kw hk)]
    have hkd : kw.data ≠ [] := by
      intro hc
      exact hne kw (List.mem_cons_self kw tl) (String.ext_iff.mpr (by simpa using hc))
    have hemp : containsSub (lowerStr kw) (lowerStr "") = false := by
      have h0 : lowerStr "" = ([] : List Char) := rfl
      rw [h0, containsSub_empty_haystack]
      cases hd : kw.data with
      | nil => exact absurd hd hkd
      | cons c cs => simp [lowerStr, hd]
    rw [hemp, Bool.or_false]

theorem kwMatch_no_description {keywords : List String} {a : Article}
    (hd : a.description = none) (hne : ∀ kw ∈ keywords, ¬kw = "") :
    kwMatch keywords a = titleOnlyMatch keywords a := by
  rw [kwMatch, titleOnlyMatch]
  simp only [hd, Option.getD_none]
  exact any_or_empty_summary keywords (lowerStr a.title) hne

theorem analyzeOne_description (model : String → String × ℚ) (a : Article) :
    (analyzeOne model a).description = a.description := rfl

/-! ### Claim C10 -/

/-- Claim C10: every record `fetch_news` produces carries exactly the keys
`title`, `link`, `published` (no `description`, no scores), and therefore in
every successful run of `main` the three keyword filters compare keywords
against the title only: each filtered bucket equals the title-only filter of
the analyzed set, the `description` branch never admitting an article. -/
theorem fetch_records_title_only :
    (∀ o arts, fetch_news o = .ok arts → ∀ a ∈ arts,
        a.description = none ∧ a.sentiment = none ∧ a.subjectivity = none)
    ∧ (∀ o1 o2 o3 model r, mainModel o1 o2 o3 model = .ok r →
        r.filtered_vish = r.analyzed_articles.filter (titleOnlyMatch keywords_vish)
        ∧ r.filtered_high_speed = r.analyzed_articles.filter (titleOnlyMatch keywords_high_speed)
        ∧ r.filtered_rzd = r.analyzed_articles.filter (titleOnlyMatch keywords_rzd)) := by
  refine ⟨fun o arts h => fetch_news_fields h, ?_⟩
  intro o1 o2 o3 model r h
  obtain ⟨l1, l2, l3, zs, h1, h2, h3, hadj, rfl⟩ := mainModel_ok h
  have hdesc : ∀ a ∈ zs, a.description = none := by
    intro a ha
    obtain ⟨hall, rfl⟩ := adjust_subjectivity_ok_inv hadj
    obtain ⟨b, hb, rfl⟩ := List.mem_map.mp ha
    rw [adjustPure_description]
    rw [analyze_sentiment_eq] at hb
    obtain ⟨c, hc, rfl⟩ := List.mem_map.mp hb
    rw [analyzeOne_description]
    have hc2 : c ∈ dedupByLink (l1 ++ l2 ++ l3) := by
      rw [filter_and_sort_articles] at hc
      exact List.mem_mergeSort.mp hc
    obtain ⟨p, hp, rfl⟩ := List.mem_map.mp hc2
    have hmem : p.2 ∈ l1 ++ l2 ++ l3 := (mem_buildLinkDict hp).1
    rcases List.mem_append.mp hmem with hmm | hmm
    · rcases List.mem_append.mp hmm with hm1 | hm1
      · exact (fetch_news_fields h1 _ hm1).1
      · exact (fetch_news_fields h2 _ hm1).1
    · exact (fetch_news_fields h3 _ hmm).1
  have hfil : ∀ kws : List String, (∀ kw ∈ kws, ¬kw = "") →
      filter_articles_by_keywords zs kws = zs.filter (titleOnlyMatch kws) := by
    intro kws hne
    rw [filter_articles_by_keywords_eq]
    exact List.filter_congr fun a ha => kwMatch_no_description (hdesc a ha) hne
  exact ⟨hfil keywords_vish (by decide), hfil keywords_high_speed (by decide),
    hfil keywords_rzd (by decide)⟩

/-! ### Witnesses: concrete instantiations of the claim theorems -/

/-- Deduplication theorem instantiated on two articles sharing one link. -/
theorem dedupByLink_last_write_wins_witness :
    ((dedupByLink [artNeutral, artNeutralV2]).map Article.link).Nodup
    ∧ (∀ a ∈ dedupByLink [artNeutral, artNeutralV2],
        lastOcc a.link [artNeutral, artNeutralV2] = some a)
    ∧ (∀ a ∈ [artNeutral, artNeutralV2],
        ∃ b ∈ dedupByLink [artNeutral, artNeutralV2], b.link = a.link)
    ∧ dedupByLink ([] : List Article) = [] :=
  dedupByLink_last_write_wins [artNeutral, artNeutralV2]

/-- Sorting theorem instantiated on a concrete two-article list. -/
theorem filter_and_sort_articles_spec_witness :
    (filter_and_sort_articles [artRzd, artOther]).Pairwise
        (fun a b => b.published ≤ a.published)
    ∧ (∀ p : String,
        (filter_and_sort_articles [artRzd, artOther]).filter (fun a => decide (a.published = p))
          = [artRzd, artOther].filter (fun a => decide (a.published = p)))
    ∧ (filter_and_sort_articles [artRzd, artOther]).Perm [artRzd, artOther] :=
  filter_and_sort_articles_spec [artRzd, artOther]

/-- Scoring theorem instantiated on a concrete article and classifier stub. -/
theorem analyze_sentiment_spec_witness :
    (analyze_sentiment constNeutral [artRzd]).2 = [artRzd].map Article.title
    ∧ (analyze_sentiment constNeutral [artRzd]).1 = [artRzd].map (analyzeOne constNeutral)
    ∧ (∀ b ∈ (analyze_sentiment constNeutral [artRzd]).1,
        b.sentiment = some (constNeutral b.title).1
        ∧ b.subjectivity = some (constNeutral b.title).2) :=
  analyze_sentiment_spec constNeutral [artRzd]

/-- Adjustment theorem instantiated on one NEUTRAL and one POSITIVE article. -/
theorem adjust_subjectivity_spec_witness :
    ∃ ys, adjust_subjectivity [artNeutral, artPositive] = .ok ys
      ∧ ys.length = [artNeutral, artPositive].length
      ∧ ∀ i : Nat, ∀ hi : i < [artNeutral, artPositive].length, ∀ hy : i < ys.length,
          ((([artNeutral, artPositive].get ⟨i, hi⟩).sentiment = some "NEUTRAL") →
            ys.get ⟨i, hy⟩
              = { [artNeutral, artPositive].get ⟨i, hi⟩ with subjectivity := some (1/10 : ℚ) })
          ∧ ((([artNeutral, artPositive].get ⟨i, hi⟩).sentiment ≠ some "NEUTRAL") →
            ys.get ⟨i, hy⟩ = [artNeutral, artPositive].get ⟨i, hi⟩) :=
  adjust_subjectivity_spec [artNeutral, artPositive] (by decide)

/-- Idempotence theorem instantiated on the same concrete scored list. -/
theorem adjust_subjectivity_idempotent_witness :
    (adjust_subjectivity [artNeutral, artPositive] >>= adjust_subjectivity)
      = adjust_subjectivity [artNeutral, artPositive] :=
  adjust_subjectivity_idempotent [artNeutral, artPositive] (by decide)

/-- Keyword filter theorem instantiated on the spec's РЖД example. -/
theorem filter_articles_by_keywords_spec_witness :
    filter_articles_by_keywords [artRzd] ["РЖД"] = [artRzd].filter (kwMatch ["РЖД"])
    ∧ (filter_articles_by_keywords [artRzd] ["РЖД"]).Sublist [artRzd]
    ∧ (∀ a ∈ [artRzd],
        (a ∈ filter_articles_by_keywords [artRzd] ["РЖД"] ↔ kwMatch ["РЖД"] a = true))
    ∧ filter_articles_by_keywords [artRzd, artOther] ["РЖД"] = [artRzd]
    ∧ filter_articles_by_keywords [artLowerRzd] ["РЖД"] = [artLowerRzd] :=
  filter_articles_by_keywords_spec [artRzd] ["РЖД"]

/-- Pipeline theorem instantiated on a concrete run (all fetches degrade to
empty on a 500 response, so every stage runs on empty lists). -/
theorem main_pipeline_spec_witness :
    mainModel httpEmpty httpEmpty httpEmpty constNeutral = Except.ok emptyBundle
    ∧ ∃ l1 l2 l3,
      fetch_news httpEmpty = .ok l1 ∧ fetch_news httpEmpty = .ok l2
      ∧ fetch_news httpEmpty = .ok l3
      ∧ adjust_subjectivity
          ((analyze_sentiment constNeutral
            (filter_and_sort_articles (dedupByLink (l1 ++ l2 ++ l3)))).1)
          = .ok emptyBundle.analyzed_articles
      ∧ emptyBundle.unique_articles
          = (dedupByLink (l1 ++ l2 ++ l3)).map (enrichAlias constNeutral)
      ∧ emptyBundle.filtered_vish
          = filter_articles_by_keywords emptyBundle.analyzed_articles keywords_vish
      ∧ emptyBundle.filtered_high_speed
          = filter_articles_by_keywords emptyBundle.analyzed_articles keywords_high_speed
      ∧ emptyBundle.filtered_rzd
          = filter_articles_by_keywords emptyBundle.analyzed_articles keywords_rzd
      ∧ emptyBundle.final_articles
          = emptyBundle.filtered_vish ++ emptyBundle.filtered_high_speed
            ++ emptyBundle.filtered_rzd
      ∧ ∀ a : Article, emptyBundle.final_articles.count a
          = emptyBundle.filtered_vish.count a + emptyBundle.filtered_high_speed.count a
            + emptyBundle.filtered_rzd.count a := by
  have h : mainModel httpEmpty httpEmpty httpEmpty constNeutral = Except.ok emptyBundle := by
    simp [mainModel, bind, Except.bind, httpEmpty, constNeutral, emptyBundle, fetch_news,
      dedupByLink, buildLinkDict, filter_and_sort_articles, List.mergeSort_nil,
      analyze_sentiment, adjust_subjectivity, filter_articles_by_keywords]
  exact ⟨h, main_pipeline_spec httpEmpty httpEmpty httpEmpty constNeutral emptyBundle h⟩

/-- Order-preservation theorem instantiated on a concrete sorted list. -/
theorem stages_preserve_sort_witness :
    SortedDesc (analyze_sentiment constNeutral [artRzd, artRzd]).1
    ∧ (∀ ys, adjust_subjectivity [artRzd, artRzd] = .ok ys → SortedDesc ys)
    ∧ SortedDesc (filter_articles_by_keywords [artRzd, artRzd] ["РЖД"]) :=
  stages_preserve_sort constNeutral [artRzd, artRzd] ["РЖД"]
    (show SortedDesc [artRzd, artRzd] by simp [SortedDesc])

/-- Title-only filtering theorem instantiated on a concrete fetch result and
a concrete run of the pipeline. -/
theorem fetch_records_title_only_witness :
    (artFromRaw.description = none ∧ artFromRaw.sentiment = none
      ∧ artFromRaw.subjectivity = none)
    ∧ (emptyBundle.filtered_vish
        = emptyBundle.analyzed_articles.filter (titleOnlyMatch keywords_vish)
      ∧ emptyBundle.filtered_high_speed
        = emptyBundle.analyzed_articles.filter (titleOnlyMatch keywords_high_speed)
      ∧ emptyBundle.filtered_rzd
        = emptyBundle.analyzed_articles.filter (titleOnlyMatch keywords_rzd)) := by
  constructor
  · exact fetch_records_title_only.1 (HttpResult.response 200 "" [rawSample]) [artFromRaw]
      (by simp [fetch_news, rawSample, artFromRaw]) artFromRaw (List.mem_singleton.mpr rfl)
  · refine fetch_records_title_only.2 httpEmpty httpEmpty httpEmpty constNeutral emptyBundle ?_
    simp [mainModel, bind, Except.bind, httpEmpty, constNeutral, emptyBundle, fetch_news,
      dedupByLink, buildLinkDict, filter_and_sort_articles, List.mergeSort_nil,
      analyze_sentiment, adjust_subjectivity, filter_articles_by_keywords]

end NewsPipeline
